import Mathlib

/-!
Verification of `src/textures/split.py` (function `split_json_file`).

The Python function loads a JSON object (modelled as an association list
`data : List (String × V)` in the parser's iteration order, keys unique by
JSON-object semantics), then:
  * computes `num_files = math.ceil(len(data) / objects_per_file)`
    (a `ZeroDivisionError` is raised when `objects_per_file = 0`);
  * picks `example_key = random.choice(list(data.keys()))`
    (an `IndexError` is raised when the mapping is empty) and writes
    `doc.json` with `{example_key: data[example_key]}`, indented;
  * for `file_num in range(num_files)` slices
    `keys[file_num*C : min(file_num*C + C, total)]`, builds the chunk dict,
    records `index[key] = file_num` for each chunk key, and writes
    `geometry_{file_num}.json` minified;
  * writes `geometry_index.json` minified and returns its path.

The model below returns the full trace of file writes (in the order the
Python code performs them) together with either the raised error or the
returned path.  The randomness of `random.choice` is modelled by a
parameter `pick : Nat`; the chosen key is `keys[pick % len(keys)]`, which
ranges over exactly the values `random.choice` can produce.
-/

namespace Geometry

/-- Errors the Python code can raise on the paths the claims exercise:
`zeroDivisionError` from `total_objects / objects_per_file` when the chunk
size is 0, `indexError` from `random.choice` on an empty sequence, and
`keyError` from a dict lookup `data[k]` of an absent key. -/
inductive SplitError where
  | zeroDivisionError
  | indexError
  | keyError
deriving DecidableEq, Repr

/-- Serialization format passed to `json.dump`: `indent2` models
`indent=2` (doc file), `minified` models `separators=(',', ':')`
(shard and index files). -/
inductive JFormat where
  | indent2
  | minified
deriving DecidableEq, Repr

/-- What the code serializes into a file: the one-entry example dict
(`example_data`), a chunk dict (`chunk_data`), or the index dict. -/
inductive Payload (V : Type) where
  | doc (kvs : List (String × V))
  | shard (kvs : List (String × V))
  | index (kvs : List (String × Nat))
deriving DecidableEq

/-- One `json.dump(..., open(path, 'w'), ...)` call: the path written,
the serialization format, and the serialized mapping. -/
structure WriteEvent (V : Type) where
  path : String
  format : JFormat
  payload : Payload V
deriving DecidableEq

/-- How the run ends: an exception propagating out, or a normal return. -/
inductive RunResult where
  | raised (e : SplitError)
  | returned (path : String)
deriving DecidableEq, Repr

/-- A run of `split_json_file`: the file writes it performed, in order,
and how it ended. -/
structure RunOutcome (V : Type) where
  events : List (WriteEvent V)
  result : RunResult
deriving DecidableEq

/-- `os.path.join(dir, file)` for a relative `file` on POSIX: the
separator is inserted unless `dir` is empty or already ends in `'/'`. -/
def pathJoin (dir file : String) : String :=
  if dir = "" then file
  else if dir.data.getLast? = some '/' then dir ++ file
  else dir ++ "/" ++ file

/-- `math.ceil(a / b)` on integers (exact ceiling of the quotient).
Lean's `Int` division is Euclidean: for `0 < b` it is the floor of the
quotient, so `⌈a/b⌉ = -⌊-a/b⌋`; for `b < 0` Euclidean division itself
rounds the quotient up. -/
def ceilDiv (a b : Int) : Int :=
  if 0 < b then -((-a) / b) else a / b

/-- Python dict assignment `d[k] = v`: replace in place if the key is
present, else append. -/
def dictSet {V : Type} (d : List (String × V)) (k : String) (v : V) :
    List (String × V) :=
  if d.any (fun p => p.1 == k) then
    d.map (fun p => if p.1 == k then (k, v) else p)
  else d ++ [(k, v)]

/-- Python slice `l[a:b]` for non-negative bounds (the code only slices
with `0 ≤ a` and `0 ≤ b`). -/
def pySlice {α : Type} (l : List α) (a b : Int) : List α :=
  (l.drop a.toNat).take (b.toNat - a.toNat)

/-- The dict comprehension `{key: data[key] for key in ks}` built into
`acc`: each lookup `data[key]` raises `KeyError` when the key is absent. -/
def buildChunk {V : Type} (data : List (String × V)) :
    List String → List (String × V) → Except SplitError (List (String × V))
  | [], acc => .ok acc
  | k :: rest, acc =>
    match data.lookup k with
    | none => .error .keyError
    | some v => buildChunk data rest (dictSet acc k v)

/-- The `for file_num in range(num_files)` loop of `split_json_file`:
slice the chunk keys, build the chunk dict, record each chunk key's file
number in the index, write `geometry_{file_num}.json` (minified).
Returns the writes performed and either the raised error or the final
index. -/
def processFiles {V : Type} (data : List (String × V)) (keys : List String)
    (outputDir : String) (objectsPerFile totalObjects : Int) :
    List Nat → List (String × Nat) → List (WriteEvent V) →
    List (WriteEvent V) × Except SplitError (List (String × Nat))
  | [], index, events => (events, .ok index)
  | fileNum :: rest, index, events =>
    let startIdx : Int := (fileNum : Int) * objectsPerFile
    let endIdx : Int := min (startIdx + objectsPerFile) totalObjects
    let chunkKeys := pySlice keys startIdx endIdx
    match buildChunk data chunkKeys [] with
    | .error e => (events, .error e)
    | .ok chunkData =>
      let index2 := chunkKeys.foldl (fun d k => dictSet d k fileNum) index
      let ev : WriteEvent V :=
        ⟨pathJoin outputDir ("geometry_" ++ toString fileNum ++ ".json"),
         .minified, .shard chunkData⟩
      processFiles data keys outputDir objectsPerFile totalObjects rest
        index2 (events ++ [ev])

/-- `split_json_file(input_file, output_dir, objects_per_file)` with the
input file already parsed to `data` and the `random.choice` draw modelled
by `pick`.  Mirrors the statement order of the source: `num_files` is
computed (line 34) before the example key is drawn (line 39), `doc.json`
is written (line 45) before the chunk loop (lines 51-71), and
`geometry_index.json` is written last (line 76) with its path returned
(line 79). -/
def splitJsonFile {V : Type} (data : List (String × V)) (outputDir : String)
    (objectsPerFile : Int) (pick : Nat) : RunOutcome V :=
  let totalObjects : Int := (data.length : Int)
  if objectsPerFile = 0 then ⟨[], .raised .zeroDivisionError⟩
  else
    let numFiles : Int := ceilDiv totalObjects objectsPerFile
    match data with
    | [] => ⟨[], .raised .indexError⟩
    | e :: _ =>
      let keys := data.map Prod.fst
      let exampleKey := keys.getD (pick % data.length) e.1
      match data.lookup exampleKey with
      | none => ⟨[], .raised .keyError⟩
      | some v =>
        let docEv : WriteEvent V :=
          ⟨pathJoin outputDir "doc.json", .indent2, .doc [(exampleKey, v)]⟩
        match processFiles data keys outputDir objectsPerFile totalObjects
            (List.range numFiles.toNat) [] [] with
        | (events, .error err) => ⟨docEv :: events, .raised err⟩
        | (events, .ok index) =>
          let indexFile := pathJoin outputDir "geometry_index.json"
          let indexEv : WriteEvent V := ⟨indexFile, .minified, .index index⟩
          ⟨docEv :: events ++ [indexEv], .returned indexFile⟩

/-- The chunk dict carried by a write event, when it is a shard write. -/
def shardPayload? {V : Type} (ev : WriteEvent V) : Option (List (String × V)) :=
  match ev.payload with | .shard kvs => some kvs | _ => none

/-- The index dict carried by a write event, when it is an index write. -/
def indexPayload? {V : Type} (ev : WriteEvent V) : Option (List (String × Nat)) :=
  match ev.payload with | .index kvs => some kvs | _ => none

/-- The example dict carried by a write event, when it is a doc write. -/
def docPayload? {V : Type} (ev : WriteEvent V) : Option (List (String × V)) :=
  match ev.payload with | .doc kvs => some kvs | _ => none

/-- The chunk dicts written to shard files, in write order. -/
def shardPayloads {V : Type} (o : RunOutcome V) : List (List (String × V)) :=
  o.events.filterMap shardPayload?

/-- The index dicts written to index files, in write order. -/
def indexPayloads {V : Type} (o : RunOutcome V) : List (List (String × Nat)) :=
  o.events.filterMap indexPayload?

/-- The example dicts written to doc files, in write order. -/
def docPayloads {V : Type} (o : RunOutcome V) : List (List (String × V)) :=
  o.events.filterMap docPayload?

/-! ### Closed forms for the pieces of a successful run -/

/-- The chunk dict of shard `i`: the records at ordinal positions
`[i*c, i*c + c)` of the input, in input order. -/
def sliceChunk {V : Type} (d : List (String × V)) (c i : Nat) :
    List (String × V) :=
  (d.drop (i * c)).take c

/-- The chunk keys of shard `i` (`keys[i*c : i*c + c]`). -/
def sliceKeys {V : Type} (d : List (String × V)) (c i : Nat) : List String :=
  ((d.map Prod.fst).drop (i * c)).take c

/-- The index entries contributed by shard `i`. -/
def idxPairs {V : Type} (d : List (String × V)) (c i : Nat) :
    List (String × Nat) :=
  (sliceKeys d c i).map (fun k => (k, i))

/-- The index accumulated after processing shards `0 .. s-1`. -/
def idxUpTo {V : Type} (d : List (String × V)) (c s : Nat) :
    List (String × Nat) :=
  ((List.range s).map (idxPairs d c)).flatten

/-- The write of shard file `i`. -/
def shardEventAt {V : Type} (d : List (String × V)) (outputDir : String)
    (c i : Nat) : WriteEvent V :=
  ⟨pathJoin outputDir ("geometry_" ++ toString i ++ ".json"), .minified,
   .shard (sliceChunk d c i)⟩

/-- The one-entry dict `{example_key: data[example_key]}` written to
`doc.json`, with the `random.choice` draw modelled by `pick`. -/
def examplePayload {V : Type} (d : List (String × V)) (pick : Nat) :
    List (String × V) :=
  match d with
  | [] => []
  | e :: _ =>
    let k := (d.map Prod.fst).getD (pick % d.length) e.1
    match d.lookup k with
    | some v => [(k, v)]
    | none => []

/-! ### Dictionary lemmas -/

section Lemmas

variable {V : Type}

lemma lookup_isSome_of_mem {d : List (String × V)} {k : String}
    (h : k ∈ d.map Prod.fst) : ∃ v, d.lookup k = some v := by
  induction d with
  | nil => simp at h
  | cons p rest ih =>
    by_cases hk : p.1 = k
    · exact ⟨p.2, by simp [List.lookup, hk]⟩
    · have : k ∈ rest.map Prod.fst := by
        simp at h
        rcases h with h | h
        · exact absurd h.symm hk
        · simpa using h
      rcases ih this with ⟨v, hv⟩
      refine ⟨v, ?_⟩
      have hbeq : (k == p.1) = false := by
        simp only [beq_eq_false_iff_ne]
        exact fun he => hk he.symm
      simp [List.lookup, hbeq, hv]

lemma lookup_eq_of_mem_nodup {d : List (String × V)} {p : String × V}
    (hnd : (d.map Prod.fst).Nodup) (hp : p ∈ d) : d.lookup p.1 = some p.2 := by
  induction d with
  | nil => simp at hp
  | cons q rest ih =>
    rcases List.mem_cons.mp hp with h | h
    · subst h
      simp [List.lookup]
    · have hq : q.1 ∉ rest.map Prod.fst := by
        simpa using (List.nodup_cons.mp hnd).1
      have hne : (p.1 == q.1) = false := by
        simp only [beq_eq_false_iff_ne]
        intro he
        exact hq (he ▸ List.mem_map_of_mem Prod.fst h)
      have := ih (List.nodup_cons.mp hnd).2 h
      simp [List.lookup, hne, this]

lemma dictSet_eq_append {d : List (String × V)} {k : String} (v : V)
    (h : k ∉ d.map Prod.fst) : dictSet d k v = d ++ [(k, v)] := by
  have : d.any (fun p => p.1 == k) = false := by
    simp only [List.any_eq_false]
    intro p hp
    simp only [beq_iff_eq]
    intro he
    exact h (he ▸ List.mem_map_of_mem Prod.fst hp)
  simp [dictSet, this]

lemma buildChunk_eq {d : List (String × V)} (hnd : (d.map Prod.fst).Nodup)
    (l : List (String × V)) (hl : ∀ p ∈ l, p ∈ d)
    (hlnd : (l.map Prod.fst).Nodup) (acc : List (String × V))
    (hacc : ∀ k ∈ acc.map Prod.fst, k ∉ l.map Prod.fst) :
    buildChunk d (l.map Prod.fst) acc = .ok (acc ++ l) := by
  induction l generalizing acc with
  | nil => simp [buildChunk]
  | cons p rest ih =>
    have hmap : (p.1 :: rest.map Prod.fst).Nodup := by simpa using hlnd
    have hpd : p ∈ d := hl p (List.mem_cons_self p rest)
    have hlookup : d.lookup p.1 = some p.2 := lookup_eq_of_mem_nodup hnd hpd
    have hfresh : p.1 ∉ acc.map Prod.fst := by
      intro hmem
      exact hacc p.1 hmem (by simp)
    have hset : dictSet acc p.1 p.2 = acc ++ [p] := dictSet_eq_append p.2 hfresh
    have hstep := ih (fun q hq => hl q (List.mem_cons_of_mem p hq))
      (List.nodup_cons.mp hmap).2 (acc ++ [p]) ?_
    · simp only [List.map_cons, buildChunk, hlookup, hset]
      rw [hstep]
      simp
    · intro k hk
      simp only [List.map_append, List.mem_append] at hk
      rcases hk with hk | hk
      · intro hm
        exact hacc k hk (List.mem_cons_of_mem _ hm)
      · simp at hk
        subst hk
        simpa using (List.nodup_cons.mp hmap).1

lemma foldl_dictSet_eq_append (i : Nat) :
    ∀ (ks : List String) (index : List (String × Nat)), ks.Nodup →
      (∀ k ∈ ks, k ∉ index.map Prod.fst) →
      ks.foldl (fun d k => dictSet d k i) index
        = index ++ ks.map (fun k => (k, i))
  | [], index, _, _ => by simp
  | k :: rest, index, hks, hfresh => by
    have hset : dictSet index k i = index ++ [(k, i)] :=
      dictSet_eq_append i (hfresh k (by simp))
    have hstep := foldl_dictSet_eq_append i rest (index ++ [(k, i)])
      (List.nodup_cons.mp hks).2 ?_
    · simp only [List.foldl_cons, hset, hstep]
      simp
    · intro k2 hk2
      simp only [List.map_append, List.mem_append]
      push_neg
      refine ⟨fun hm => hfresh k2 (by simp [hk2]) hm, ?_⟩
      simp only [List.map_cons, List.map_nil]
      intro hm
      simp at hm
      subst hm
      exact (List.nodup_cons.mp hks).1 hk2

/-! ### Slice lemmas -/

lemma sliceKeys_eq_map (d : List (String × V)) (c i : Nat) :
    sliceKeys d c i = (sliceChunk d c i).map Prod.fst := by
  simp [sliceKeys, sliceChunk, List.map_take, List.map_drop]

lemma pySlice_eq {α : Type} (l : List α) (s c : Nat) :
    pySlice l (s : Int) (min ((s : Int) + (c : Int)) (l.length : Int))
      = (l.drop s).take c := by
  unfold pySlice
  have h1 : ((s : Int)).toNat = s := by omega
  have h2 : (min ((s : Int) + (c : Int)) ((l.length : Nat) : Int)).toNat
      = min (s + c) l.length := by omega
  rw [h1, h2, List.take_eq_take]
  simp [List.length_drop]
  omega

lemma chunkKeys_eq (d : List (String × V)) (c i : Nat) :
    pySlice (d.map Prod.fst) ((i : Int) * (c : Int))
      (min ((i : Int) * (c : Int) + (c : Int)) ((d.length : Nat) : Int))
      = sliceKeys d c i := by
  have hcast : ((i : Int) * (c : Int)) = (((i * c : Nat) : Nat) : Int) := by
    push_cast
    ring
  have hlen : ((d.length : Nat) : Int) = (((d.map Prod.fst).length : Nat) : Int) := by
    simp
  rw [hcast, hlen, pySlice_eq (d.map Prod.fst) (i * c) c]
  rfl

lemma flatten_slices {α : Type} (l : List α) (c : Nat) :
    ∀ n, ((List.range n).map (fun i => (l.drop (i * c)).take c)).flatten
      = l.take (n * c)
  | 0 => by simp
  | n + 1 => by
    rw [List.range_succ, List.map_append, List.flatten_append,
      flatten_slices l c n]
    have : (n + 1) * c = n * c + c := by ring
    rw [this, List.take_add]
    simp

lemma idxUpTo_map_fst (d : List (String × V)) (c s : Nat) :
    (idxUpTo d c s).map Prod.fst = (d.map Prod.fst).take (s * c) := by
  unfold idxUpTo
  rw [List.map_flatten, List.map_map]
  have : (List.map Prod.fst ∘ idxPairs d c)
      = fun i => ((d.map Prod.fst).drop (i * c)).take c := by
    funext i
    show List.map Prod.fst (idxPairs d c i) = _
    rw [idxPairs, List.map_map]
    have hcomp : (Prod.fst ∘ fun k => (k, i)) = (id : String → String) := rfl
    rw [hcomp, List.map_id, sliceKeys]
  rw [this]
  exact flatten_slices _ c s

lemma idxUpTo_succ (d : List (String × V)) (c s : Nat) :
    idxUpTo d c (s + 1) = idxUpTo d c s ++ idxPairs d c s := by
  unfold idxUpTo
  rw [List.range_succ, List.map_append, List.flatten_append]
  simp

/-! ### Arithmetic of `math.ceil(T / C)` -/

lemma ceilDiv_le_mul (a b : Int) (hb : 0 < b) : a ≤ ceilDiv a b * b := by
  unfold ceilDiv
  rw [if_pos hb]
  have hdm := Int.ediv_add_emod (-a) b
  have hr0 : 0 ≤ (-a) % b := Int.emod_nonneg (-a) (ne_of_gt hb)
  have : -((-a) / b) * b = -(b * ((-a) / b)) := by ring
  linarith

lemma ceilDiv_pred_mul_lt (a b : Int) (hb : 0 < b) :
    (ceilDiv a b - 1) * b < a := by
  unfold ceilDiv
  rw [if_pos hb]
  have hdm := Int.ediv_add_emod (-a) b
  have hrb : (-a) % b < b := Int.emod_lt_of_pos (-a) hb
  have : (-((-a) / b) - 1) * b = -(b * ((-a) / b)) - b := by ring
  linarith

lemma ceilDiv_nonneg (a b : Int) (ha : 0 ≤ a) (hb : 0 < b) :
    0 ≤ ceilDiv a b := by
  by_contra h
  push_neg at h
  have h1 : ceilDiv a b ≤ -1 := by omega
  have h2 : ceilDiv a b * b ≤ -1 * b :=
    mul_le_mul_of_nonneg_right h1 (le_of_lt hb)
  have := ceilDiv_le_mul a b hb
  omega

/-- `N * c` covers all `T` records (`N = ceil(T/c)`). -/
lemma numFiles_mul_ge (T c : Nat) (hc : 0 < c) :
    T ≤ (ceilDiv (T : Int) (c : Int)).toNat * c := by
  have hb : (0 : Int) < (c : Int) := by exact_mod_cast hc
  have h1 := ceilDiv_le_mul (T : Int) (c : Int) hb
  have h2 := ceilDiv_nonneg (T : Int) (c : Int) (by positivity) hb
  have h3 : ((ceilDiv (T : Int) (c : Int)).toNat : Int)
      = ceilDiv (T : Int) (c : Int) := Int.toNat_of_nonneg h2
  have hgoal : (T : Int)
      ≤ ((ceilDiv (T : Int) (c : Int)).toNat : Int) * (c : Int) := by
    rw [h3]
    exact h1
  exact_mod_cast hgoal

/-- The last shard is non-empty: `(N-1)*c < T` whenever `T ≥ 1`. -/
lemma numFiles_pred_mul_lt (T c : Nat) (hc : 0 < c) (hT : 0 < T) :
    ((ceilDiv (T : Int) (c : Int)).toNat - 1) * c < T := by
  have hb : (0 : Int) < (c : Int) := by exact_mod_cast hc
  have h1 := ceilDiv_pred_mul_lt (T : Int) (c : Int) hb
  have h2 := ceilDiv_nonneg (T : Int) (c : Int) (by positivity) hb
  set N : Nat := (ceilDiv (T : Int) (c : Int)).toNat with hN
  have hNint : (N : Int) = ceilDiv (T : Int) (c : Int) := Int.toNat_of_nonneg h2
  rcases Nat.eq_zero_or_pos N with h0 | hpos
  · simpa [h0] using hT
  · have hlt : ((N : Int) - 1) * (c : Int) < (T : Int) := by
      rw [hNint]
      exact h1
    have hcast : (((N - 1) * c : Nat) : Int) = ((N : Int) - 1) * (c : Int) := by
      push_cast [Nat.cast_sub hpos]
      ring
    omega

lemma numFiles_pos (T c : Nat) (hc : 0 < c) (hT : 0 < T) :
    0 < (ceilDiv (T : Int) (c : Int)).toNat := by
  have := numFiles_mul_ge T c hc
  rcases Nat.eq_zero_or_pos (ceilDiv (T : Int) (c : Int)).toNat with h0 | hpos
  · rw [h0] at this
    omega
  · exact hpos

/-! ### The chunk loop in closed form -/

lemma sliceChunk_sublist (d : List (String × V)) (c i : Nat) :
    (sliceChunk d c i).Sublist d :=
  (List.take_sublist c _).trans (List.drop_sublist (i * c) d)

lemma sliceKeys_nodup {d : List (String × V)} (hnd : (d.map Prod.fst).Nodup)
    (c i : Nat) : (sliceKeys d c i).Nodup := by
  have hsub : (sliceKeys d c i).Sublist (d.map Prod.fst) :=
    (List.take_sublist c _).trans (List.drop_sublist (i * c) _)
  exact hsub.nodup hnd

lemma sliceKeys_disjoint_idxUpTo {d : List (String × V)}
    (hnd : (d.map Prod.fst).Nodup) (c s : Nat) :
    ∀ k ∈ sliceKeys d c s, k ∉ (idxUpTo d c s).map Prod.fst := by
  intro k hk
  rw [idxUpTo_map_fst]
  have hdisj := List.disjoint_take_drop hnd (le_refl (s * c))
  intro hmem
  exact hdisj hmem (List.mem_of_mem_take hk)

lemma buildChunk_slice {d : List (String × V)} (hnd : (d.map Prod.fst).Nodup)
    (c i : Nat) :
    buildChunk d (sliceKeys d c i) [] = .ok (sliceChunk d c i) := by
  rw [sliceKeys_eq_map]
  have := buildChunk_eq hnd (sliceChunk d c i)
    (fun p hp => (sliceChunk_sublist d c i).mem hp)
    (by rw [← sliceKeys_eq_map]; exact sliceKeys_nodup hnd c i)
    [] (by simp)
  simpa using this

/-- Closed form of the chunk loop over file numbers `s .. s+n-1`, starting
from the index accumulated for the first `s` chunks. -/
lemma processFiles_spec (d : List (String × V)) (outDir : String) (c : Nat)
    (hnd : (d.map Prod.fst).Nodup) :
    ∀ (n s : Nat) (events : List (WriteEvent V)),
      processFiles d (d.map Prod.fst) outDir (c : Int) (d.length : Int)
        (List.range' s n) (idxUpTo d c s) events
      = (events ++ (List.range' s n).map (shardEventAt d outDir c),
         .ok (idxUpTo d c (s + n)))
  | 0, s, events => by
    simp [processFiles]
  | n + 1, s, events => by
    rw [List.range'_succ]
    simp only [processFiles]
    rw [chunkKeys_eq d c s, buildChunk_slice hnd c s]
    rw [foldl_dictSet_eq_append s (sliceKeys d c s) (idxUpTo d c s)
      (sliceKeys_nodup hnd c s) (sliceKeys_disjoint_idxUpTo hnd c s)]
    have hidx : idxUpTo d c s ++ (sliceKeys d c s).map (fun k => (k, s))
        = idxUpTo d c (s + 1) := by
      rw [idxUpTo_succ]
      rfl
    rw [hidx]
    split
    next he => simp at he
    next chunkData hchunk =>
      have hcd : chunkData = sliceChunk d c s := by
        simpa using hchunk.symm
      subst hcd
      have hrec := processFiles_spec d outDir c hnd n (s + 1)
        (events ++ [shardEventAt d outDir c s])
      have hev : (⟨pathJoin outDir ("geometry_" ++ toString s ++ ".json"),
          JFormat.minified, Payload.shard (sliceChunk d c s)⟩ : WriteEvent V)
          = shardEventAt d outDir c s := rfl
      rw [hev, hrec]
      have harith : s + 1 + n = s + (n + 1) := by omega
      rw [harith]
      simp

lemma getD_mem {l : List String} (n : Nat) {a : String} (ha : a ∈ l) :
    l.getD n a ∈ l := by
  rcases lt_or_ge n l.length with h | h
  · rw [List.getD_eq_getElem l a h]
    exact List.getElem_mem h
  · rw [List.getD_eq_default l a h]
    exact ha

/-! ### Closed forms of whole runs -/

/-- Closed form of a successful run: positive chunk size, non-empty input
with unique keys (unique keys are guaranteed by Python dict semantics). -/
theorem splitJsonFile_spec (d : List (String × V)) (outDir : String)
    (c pick : Nat) (hc : 0 < c) (hnd : (d.map Prod.fst).Nodup)
    (hne : d ≠ []) :
    splitJsonFile d outDir (c : Int) pick =
      ⟨⟨pathJoin outDir "doc.json", .indent2, .doc (examplePayload d pick)⟩ ::
         (List.range (ceilDiv (d.length : Int) (c : Int)).toNat).map
           (shardEventAt d outDir c)
         ++ [⟨pathJoin outDir "geometry_index.json", .minified,
              .index (idxUpTo d c (ceilDiv (d.length : Int) (c : Int)).toNat)⟩],
       .returned (pathJoin outDir "geometry_index.json")⟩ := by
  cases d with
  | nil => exact absurd rfl hne
  | cons e rest =>
    have hc0 : ¬((c : Int) = 0) := by
      exact_mod_cast Nat.pos_iff_ne_zero.mp hc
    have hkmem : ((e :: rest).map Prod.fst).getD
        (pick % (e :: rest).length) e.1 ∈ (e :: rest).map Prod.fst :=
      getD_mem _ (by simp)
    rcases lookup_isSome_of_mem hkmem with ⟨v, hv⟩
    have hpf := processFiles_spec (e :: rest) outDir c hnd
      (ceilDiv ((e :: rest).length : Int) (c : Int)).toNat 0 []
    rw [← List.range_eq_range'] at hpf
    have hidx0 : idxUpTo (e :: rest) c 0 = [] := rfl
    rw [hidx0] at hpf
    simp only [Nat.zero_add] at hpf
    have hexample : examplePayload (e :: rest) pick =
        [(((e :: rest).map Prod.fst).getD (pick % (e :: rest).length) e.1, v)] := by
      simp only [examplePayload]
      rw [hv]
    simp at hpf
    simp only [splitJsonFile, if_neg hc0]
    rw [hv]
    simp [hpf, hexample]

/-- On an empty input, `random.choice(list(data.keys()))` raises
`IndexError` before any file is written (for any chunk size that survives
the `num_files` division). -/
lemma splitJsonFile_nil (outDir : String) (C : Int) (pick : Nat)
    (hC : C ≠ 0) :
    splitJsonFile ([] : List (String × V)) outDir C pick
      = ⟨[], .raised .indexError⟩ := by
  simp [splitJsonFile, hC]

/-- With chunk size 0, `math.ceil(total / 0)` raises `ZeroDivisionError`
before any file is written. -/
lemma splitJsonFile_zero (d : List (String × V)) (outDir : String)
    (pick : Nat) :
    splitJsonFile d outDir 0 pick = ⟨[], .raised .zeroDivisionError⟩ := by
  simp [splitJsonFile]

/-- With a negative chunk size and a non-empty input, `num_files ≤ 0`, so
the chunk loop runs zero times: the run writes `doc.json` and an *empty*
index file and returns normally. -/
lemma splitJsonFile_neg (d : List (String × V)) (outDir : String)
    (C : Int) (pick : Nat) (hC : C < 0) (hne : d ≠ []) :
    splitJsonFile d outDir C pick =
      ⟨[⟨pathJoin outDir "doc.json", .indent2, .doc (examplePayload d pick)⟩,
        ⟨pathJoin outDir "geometry_index.json", .minified, .index []⟩],
       .returned (pathJoin outDir "geometry_index.json")⟩ := by
  cases d with
  | nil => exact absurd rfl hne
  | cons e rest =>
    have hc0 : ¬(C = 0) := by omega
    have hkmem : ((e :: rest).map Prod.fst).getD
        (pick % (e :: rest).length) e.1 ∈ (e :: rest).map Prod.fst :=
      getD_mem _ (by simp)
    rcases lookup_isSome_of_mem hkmem with ⟨v, hv⟩
    have hN : (ceilDiv (((e :: rest).length : Nat) : Int) C).toNat = 0 := by
      apply Int.toNat_of_nonpos
      unfold ceilDiv
      rw [if_neg (by omega)]
      exact Int.ediv_nonpos (by positivity) (le_of_lt hC)
    have hexample : examplePayload (e :: rest) pick =
        [(((e :: rest).map Prod.fst).getD (pick % (e :: rest).length) e.1, v)] := by
      simp only [examplePayload]
      rw [hv]
    simp only [splitJsonFile, if_neg hc0]
    rw [hv, hN]
    simp [processFiles, hexample]

/-! ### Payload extraction from a successful run -/

lemma filterMap_some_comp {α β : Type} (f : α → β) (l : List α) :
    l.filterMap (fun a => some (f a)) = l.map f := by
  induction l with
  | nil => rfl
  | cons a t ih => simp [ih]

lemma shardPayload?_shardEventAt (d : List (String × V)) (outDir : String)
    (c i : Nat) :
    shardPayload? (shardEventAt d outDir c i) = some (sliceChunk d c i) := rfl

lemma shardPayload?_mk_doc (p : String) (f : JFormat)
    (kvs : List (String × V)) :
    shardPayload? ⟨p, f, Payload.doc kvs⟩ = none := rfl

lemma shardPayload?_mk_index (p : String) (f : JFormat)
    (kvs : List (String × Nat)) :
    shardPayload? (⟨p, f, Payload.index kvs⟩ : WriteEvent V) = none := rfl

lemma indexPayload?_shardEventAt (d : List (String × V)) (outDir : String)
    (c i : Nat) :
    indexPayload? (shardEventAt d outDir c i) = none := rfl

lemma indexPayload?_mk_doc (p : String) (f : JFormat)
    (kvs : List (String × V)) :
    indexPayload? ⟨p, f, Payload.doc kvs⟩ = none := rfl

lemma indexPayload?_mk_index (p : String) (f : JFormat)
    (kvs : List (String × Nat)) :
    indexPayload? (⟨p, f, Payload.index kvs⟩ : WriteEvent V) = some kvs := rfl

lemma docPayload?_shardEventAt (d : List (String × V)) (outDir : String)
    (c i : Nat) :
    docPayload? (shardEventAt d outDir c i) = none := rfl

lemma docPayload?_mk_doc (p : String) (f : JFormat)
    (kvs : List (String × V)) :
    docPayload? ⟨p, f, Payload.doc kvs⟩ = some kvs := rfl

lemma docPayload?_mk_index (p : String) (f : JFormat)
    (kvs : List (String × Nat)) :
    docPayload? (⟨p, f, Payload.index kvs⟩ : WriteEvent V) = none := rfl

lemma shardPayloads_run (d : List (String × V)) (outDir : String)
    (c pick : Nat) (hc : 0 < c) (hnd : (d.map Prod.fst).Nodup)
    (hne : d ≠ []) :
    shardPayloads (splitJsonFile d outDir (c : Int) pick)
      = (List.range (ceilDiv (d.length : Int) (c : Int)).toNat).map
          (sliceChunk d c) := by
  rw [splitJsonFile_spec d outDir c pick hc hnd hne]
  simp [shardPayloads, List.filterMap_map, Function.comp_def,
    shardPayload?_shardEventAt, shardPayload?_mk_doc, shardPayload?_mk_index,
    filterMap_some_comp]

lemma indexPayloads_run (d : List (String × V)) (outDir : String)
    (c pick : Nat) (hc : 0 < c) (hnd : (d.map Prod.fst).Nodup)
    (hne : d ≠ []) :
    indexPayloads (splitJsonFile d outDir (c : Int) pick)
      = [idxUpTo d c (ceilDiv (d.length : Int) (c : Int)).toNat] := by
  rw [splitJsonFile_spec d outDir c pick hc hnd hne]
  simp [indexPayloads, List.filterMap_map, Function.comp_def,
    indexPayload?_shardEventAt, indexPayload?_mk_doc, indexPayload?_mk_index]

lemma docPayloads_run (d : List (String × V)) (outDir : String)
    (c pick : Nat) (hc : 0 < c) (hnd : (d.map Prod.fst).Nodup)
    (hne : d ≠ []) :
    docPayloads (splitJsonFile d outDir (c : Int) pick)
      = [examplePayload d pick] := by
  rw [splitJsonFile_spec d outDir c pick hc hnd hne]
  simp [docPayloads, List.filterMap_map, Function.comp_def,
    docPayload?_shardEventAt, docPayload?_mk_doc, docPayload?_mk_index]

/-! ### Key-coverage lemmas -/

/-- The keys recorded in the final index are exactly the input keys. -/
lemma idxUpTo_full (d : List (String × V)) (c : Nat) (hc : 0 < c) :
    (idxUpTo d c (ceilDiv (d.length : Int) (c : Int)).toNat).map Prod.fst
      = d.map Prod.fst := by
  rw [idxUpTo_map_fst]
  apply List.take_of_length_le
  rw [List.length_map]
  exact numFiles_mul_ge d.length c hc

/-- Concatenating all chunks in order reproduces the input exactly. -/
lemma chunks_flatten (d : List (String × V)) (c : Nat) (hc : 0 < c) :
    ((List.range (ceilDiv (d.length : Int) (c : Int)).toNat).map
        (sliceChunk d c)).flatten = d := by
  have := flatten_slices d c (ceilDiv (d.length : Int) (c : Int)).toNat
  rw [show (fun i => (d.drop (i * c)).take c) = sliceChunk d c from rfl] at this
  rw [this]
  exact List.take_of_length_le (numFiles_mul_ge d.length c hc)

lemma mem_idxUpTo {d : List (String × V)} {c n : Nat} {pr : String × Nat}
    (h : pr ∈ idxUpTo d c n) : pr.2 < n ∧ pr.1 ∈ sliceKeys d c pr.2 := by
  unfold idxUpTo at h
  rw [List.mem_flatten] at h
  rcases h with ⟨block, hb, hpr⟩
  rw [List.mem_map] at hb
  rcases hb with ⟨i, hi, rfl⟩
  unfold idxPairs at hpr
  rw [List.mem_map] at hpr
  rcases hpr with ⟨k2, hk2, rfl⟩
  exact ⟨List.mem_range.mp hi, hk2⟩

lemma countP_not_mem {k : String} : ∀ (ls : List (List String)),
    k ∉ ls.flatten → ls.countP (fun l => decide (k ∈ l)) = 0
  | [], _ => by simp
  | l :: ls, h => by
    have h1 : k ∉ l := fun hk => h (by simp [hk])
    have h2 : k ∉ ls.flatten := fun hk => h (by simp [hk])
    rw [List.countP_cons_of_neg _ _ (by simpa using h1), countP_not_mem ls h2]

/-- In a concatenation with no duplicates, an element of the
concatenation belongs to exactly one of the pieces. -/
lemma countP_mem_nodup {k : String} : ∀ (ls : List (List String)),
    ls.flatten.Nodup → k ∈ ls.flatten →
    ls.countP (fun l => decide (k ∈ l)) = 1
  | [], _, h => by simp at h
  | l :: ls, hnd, h => by
    rw [List.flatten_cons] at hnd h
    rcases List.mem_append.mp h with hk | hk
    · have hnot : k ∉ ls.flatten :=
        fun hk2 => (List.disjoint_of_nodup_append hnd) hk hk2
      rw [List.countP_cons_of_pos _ _ (by simpa using hk),
        countP_not_mem ls hnot]
    · have hnot : k ∉ l :=
        fun hk2 => (List.disjoint_of_nodup_append hnd) hk2 hk
      rw [List.countP_cons_of_neg _ _ (by simpa using hnot),
        countP_mem_nodup ls hnd.of_append_right hk]


lemma sliceChunk_length (d : List (String × V)) (c i : Nat) :
    (sliceChunk d c i).length = min c (d.length - i * c) := by
  simp [sliceChunk]

lemma shards_getD (d : List (String × V)) (c i : Nat) {n : Nat} (h : i < n) :
    ((List.range n).map (sliceChunk d c)).getD i [] = sliceChunk d c i := by
  rw [List.getD_eq_getElem _ _ (by simpa using h)]
  simp

/-- C2: for every input mapping with `T` records (`T ≥ 0`) and every
chunk size `C > 0`, the number of shard files produced equals
`ceil(T / C)`.  (On `T = 0` the run dies at sampling having produced
zero shard files, and `ceil(0 / C) = 0`.) -/
theorem shard_count_eq_ceil (data : List (String × V))
    (outputDir : String) (c pick : Nat) (hc : 0 < c)
    (hnd : (data.map Prod.fst).Nodup) :
    ((shardPayloads (splitJsonFile data outputDir (c : Int) pick)).length : Int)
      = ceilDiv (data.length : Int) (c : Int) := by
  rcases eq_or_ne data [] with rfl | hne
  · rw [splitJsonFile_nil outputDir (c : Int) pick (by exact_mod_cast hc.ne')]
    simp [shardPayloads, ceilDiv, show (0 : Int) < (c : Int) from by exact_mod_cast hc]
  · rw [shardPayloads_run data outputDir c pick hc hnd hne]
    simp only [List.length_map, List.length_range]
    exact Int.toNat_of_nonneg
      (ceilDiv_nonneg _ _ (by positivity) (by exact_mod_cast hc))

/-- C3: for every input with `T ≥ 1` records and chunk size `C > 0`,
each shard file except possibly the last contains exactly `C` entries,
and the last shard contains `T - C*(N-1)` entries, a count in `[1, C]`. -/
theorem shard_sizes_full_except_last (data : List (String × V))
    (outputDir : String) (c pick : Nat) (hc : 0 < c)
    (hnd : (data.map Prod.fst).Nodup) (hne : data ≠ []) :
    (∀ i, i + 1
        < (shardPayloads (splitJsonFile data outputDir (c : Int) pick)).length →
      ((shardPayloads (splitJsonFile data outputDir (c : Int) pick)).getD i
        []).length = c) ∧
    ((shardPayloads (splitJsonFile data outputDir (c : Int) pick)).getD
        ((shardPayloads (splitJsonFile data outputDir (c : Int) pick)).length - 1)
        []).length
      = data.length
        - c * ((shardPayloads
            (splitJsonFile data outputDir (c : Int) pick)).length - 1) ∧
    1 ≤ data.length
        - c * ((shardPayloads
            (splitJsonFile data outputDir (c : Int) pick)).length - 1) ∧
    data.length
        - c * ((shardPayloads
            (splitJsonFile data outputDir (c : Int) pick)).length - 1) ≤ c := by
  have hT : 0 < data.length := List.length_pos.mpr hne
  rw [shardPayloads_run data outputDir c pick hc hnd hne]
  simp only [List.length_map, List.length_range]
  set N : Nat := (ceilDiv (data.length : Int) (c : Int)).toNat with hN
  have hNpos : 0 < N := numFiles_pos data.length c hc hT
  have hcov : data.length ≤ N * c := numFiles_mul_ge data.length c hc
  have hlast : (N - 1) * c < data.length := numFiles_pred_mul_lt data.length c hc hT
  refine ⟨?_, ?_, ?_, ?_⟩
  · intro i hi
    rw [shards_getD data c i (by omega), sliceChunk_length]
    have hmul : (i + 1) * c ≤ (N - 1) * c :=
      Nat.mul_le_mul_right c (by omega)
    have hic : i * c + c ≤ (N - 1) * c := by
      calc i * c + c = (i + 1) * c := by ring
        _ ≤ (N - 1) * c := hmul
    have hlt : i * c + c < data.length := lt_of_le_of_lt hic hlast
    omega
  · rw [shards_getD data c (N - 1) (by omega), sliceChunk_length]
    have hsucc : N * c = (N - 1) * c + c := by
      have hpred : N - 1 + 1 = N := Nat.succ_pred_eq_of_pos hNpos
      calc N * c = (N - 1 + 1) * c := by rw [hpred]
        _ = (N - 1) * c + c := by ring
    rw [Nat.mul_comm c (N - 1)]
    omega
  · have hsucc : N * c = (N - 1) * c + c := by
      have hpred : N - 1 + 1 = N := Nat.succ_pred_eq_of_pos hNpos
      calc N * c = (N - 1 + 1) * c := by rw [hpred]
        _ = (N - 1) * c + c := by ring
    rw [Nat.mul_comm c (N - 1)]
    omega
  · have hsucc : N * c = (N - 1) * c + c := by
      have hpred : N - 1 + 1 = N := Nat.succ_pred_eq_of_pos hNpos
      calc N * c = (N - 1 + 1) * c := by rw [hpred]
        _ = (N - 1) * c + c := by ring
    rw [Nat.mul_comm c (N - 1)]
    omega

/-- C4: shard `i` (0-indexed) contains exactly the records whose keys
sit at ordinal positions `[i*C, min((i+1)*C, T))` of the input in its
iteration order, and within the shard the keys appear in that order
(the shard equals that contiguous slice of the input). -/
theorem shard_contents_ordered_slice (data : List (String × V))
    (outputDir : String) (c pick : Nat) (hc : 0 < c)
    (hnd : (data.map Prod.fst).Nodup) :
    ∀ i, i < (shardPayloads (splitJsonFile data outputDir (c : Int) pick)).length →
      (shardPayloads (splitJsonFile data outputDir (c : Int) pick)).getD i []
        = (data.drop (i * c)).take (min ((i + 1) * c) data.length - i * c) := by
  rcases eq_or_ne data [] with rfl | hne
  · rw [splitJsonFile_nil outputDir (c : Int) pick (by exact_mod_cast hc.ne')]
    intro i hi
    simp [shardPayloads] at hi
  · rw [shardPayloads_run data outputDir c pick hc hnd hne]
    intro i hi
    simp only [List.length_map, List.length_range] at hi
    rw [shards_getD data c i hi]
    unfold sliceChunk
    rw [List.take_eq_take]
    simp only [List.length_drop]
    have hmul : (i + 1) * c = i * c + c := by ring
    rw [hmul]
    omega

lemma shard_keys_flatten (d : List (String × V)) (c : Nat) (hc : 0 < c) :
    (((List.range (ceilDiv (d.length : Int) (c : Int)).toNat).map
        (sliceChunk d c)).map (fun s => s.map Prod.fst)).flatten
      = d.map Prod.fst := by
  rw [List.map_map]
  have h1 : ((fun s => s.map Prod.fst) ∘ sliceChunk d c) = sliceKeys d c := by
    funext i
    exact (sliceKeys_eq_map d c i).symm
  rw [h1]
  have h2 : sliceKeys d c
      = fun i => ((d.map Prod.fst).drop (i * c)).take c := rfl
  rw [h2, flatten_slices (d.map Prod.fst) c]
  apply List.take_of_length_le
  rw [List.length_map]
  exact numFiles_mul_ge d.length c hc

/-- C1: every key of the input appears in exactly one shard dict and in
the index, the index maps it to the number of the shard that physically
contains it, and the concatenation of all shards' key lists is exactly
the input's key list (no duplicates, no omissions). -/
theorem keys_partitioned_and_indexed (data : List (String × V))
    (outputDir : String) (c pick : Nat) (hc : 0 < c)
    (hnd : (data.map Prod.fst).Nodup) :
    (∀ k ∈ data.map Prod.fst,
      (shardPayloads (splitJsonFile data outputDir (c : Int) pick)).countP
        (fun s => decide (k ∈ s.map Prod.fst)) = 1) ∧
    (∀ k ∈ data.map Prod.fst, ∃ i,
      ((indexPayloads (splitJsonFile data outputDir (c : Int) pick)).flatten).lookup k
          = some i ∧
      i < (shardPayloads (splitJsonFile data outputDir (c : Int) pick)).length ∧
      k ∈ ((shardPayloads (splitJsonFile data outputDir (c : Int) pick)).getD i
          []).map Prod.fst) ∧
    ((shardPayloads (splitJsonFile data outputDir (c : Int) pick)).map
        (fun s => s.map Prod.fst)).flatten = data.map Prod.fst := by
  rcases eq_or_ne data [] with rfl | hne
  · rw [splitJsonFile_nil outputDir (c : Int) pick (by exact_mod_cast hc.ne')]
    refine ⟨?_, ?_, ?_⟩ <;> simp [shardPayloads, indexPayloads]
  · have hrunS := shardPayloads_run data outputDir c pick hc hnd hne
    have hrunI := indexPayloads_run data outputDir c pick hc hnd hne
    have hflat := shard_keys_flatten data c hc
    have hfull := idxUpTo_full data c hc
    refine ⟨?_, ?_, ?_⟩
    · intro k hk
      rw [hrunS]
      have hcount := countP_mem_nodup
        (((List.range (ceilDiv (data.length : Int) (c : Int)).toNat).map
          (sliceChunk data c)).map (fun s => s.map Prod.fst))
        (by rw [hflat]; exact hnd) (by rw [hflat]; exact hk)
      rw [List.countP_map] at hcount
      exact hcount
    · intro k hk
      have hkmem : k ∈ (idxUpTo data c
          (ceilDiv (data.length : Int) (c : Int)).toNat).map Prod.fst := by
        rw [hfull]
        exact hk
      rcases List.mem_map.mp hkmem with ⟨pr, hpr, hfst⟩
      have hmem := mem_idxUpTo hpr
      refine ⟨pr.2, ?_, ?_, ?_⟩
      · rw [hrunI]
        have hnd2 : ((idxUpTo data c
            (ceilDiv (data.length : Int) (c : Int)).toNat).map Prod.fst).Nodup := by
          rw [hfull]
          exact hnd
        have hlook := lookup_eq_of_mem_nodup hnd2 hpr
        rw [hfst] at hlook
        simpa using hlook
      · rw [hrunS]
        simpa using hmem.1
      · rw [hrunS, shards_getD data c pr.2 hmem.1, ← sliceKeys_eq_map]
        rw [← hfst]
        exact hmem.2
    · rw [hrunS]
      exact hflat

/-- C5, counterexample: on the empty input `{}` the run raises
`IndexError` at `random.choice` and writes *nothing* — in particular no
index file with content `{}` is ever created, contradicting the claim
that an empty index file is written. -/
theorem empty_input_no_index_counterexample :
    (splitJsonFile ([] : List (String × Nat)) "out" 2 0).events = [] ∧
    indexPayloads (splitJsonFile ([] : List (String × Nat)) "out" 2 0) = [] ∧
    (splitJsonFile ([] : List (String × Nat)) "out" 2 0).result
      = RunResult.raised SplitError.indexError :=
  ⟨by decide, by decide, by decide⟩

/-- C5, amended: for the empty input and any chunk size `C > 0`, the
run fails during sampling (`IndexError` from `random.choice` on an empty
sequence) before writing anything: zero shard files, and no index file
(and no doc file) is produced. -/
theorem empty_input_raises_before_any_write (outputDir : String) (C : Int)
    (pick : Nat) (hC : 0 < C) :
    splitJsonFile ([] : List (String × V)) outputDir C pick
      = ⟨[], .raised .indexError⟩ :=
  splitJsonFile_nil outputDir C pick (by omega)

theorem empty_input_raises_witness :
    (0 : Int) < 2 ∧ splitJsonFile ([] : List (String × Nat)) "out" 2 0
      = ⟨[], .raised .indexError⟩ :=
  ⟨by decide, empty_input_raises_before_any_write "out" 2 0 (by decide)⟩

/-- C6, counterexample: with chunk size `-1` (non-positive) on input
`{"a": 1}` the run does not fail at all: it returns the index path
normally and produces output files, contradicting the claim that every
non-positive chunk size fails with a configuration error. -/
theorem negative_chunk_counterexample :
    (splitJsonFile [("a", 1)] "out" (-1) 0).result
        = RunResult.returned "out/geometry_index.json" ∧
    (splitJsonFile [("a", 1)] "out" (-1) 0).events ≠ [] :=
  ⟨by decide, by decide⟩

/-- C6, amended: chunk size `0` raises `ZeroDivisionError` at the
`num_files` computation before any output is written; a negative chunk
size on a non-empty input silently completes, writing `doc.json` and an
index file whose content is the empty object but no shard files. -/
theorem nonpositive_chunk_behavior (data : List (String × V))
    (outputDir : String) (pick : Nat) :
    splitJsonFile data outputDir 0 pick = ⟨[], .raised .zeroDivisionError⟩ ∧
    (∀ C : Int, C < 0 → data ≠ [] →
      splitJsonFile data outputDir C pick =
        ⟨[⟨pathJoin outputDir "doc.json", .indent2,
            .doc (examplePayload data pick)⟩,
          ⟨pathJoin outputDir "geometry_index.json", .minified, .index []⟩],
         .returned (pathJoin outputDir "geometry_index.json")⟩) :=
  ⟨splitJsonFile_zero data outputDir pick,
   fun C hC hne => splitJsonFile_neg data outputDir C pick hC hne⟩

theorem nonpositive_chunk_behavior_witness :
    (splitJsonFile [("a", 1)] "out" 0 0
        = ⟨[], .raised .zeroDivisionError⟩) ∧
    ((-1 : Int) < 0 ∧ ([("a", 1)] : List (String × Nat)) ≠ [] ∧
      splitJsonFile [("a", 1)] "out" (-1) 0 =
        ⟨[⟨pathJoin "out" "doc.json", .indent2,
            .doc (examplePayload [("a", 1)] 0)⟩,
          ⟨pathJoin "out" "geometry_index.json", .minified, .index []⟩],
         .returned (pathJoin "out" "geometry_index.json")⟩) :=
  ⟨(nonpositive_chunk_behavior [("a", 1)] "out" 0).1,
   by decide, by decide,
   (nonpositive_chunk_behavior [("a", 1)] "out" 0).2 (-1) (by decide) (by decide)⟩

/-- C7: for every input with `T ≥ 1` records (and valid chunk size),
the written `doc.json` contains exactly one key-value pair, the key is a
key of the input mapping, and the value is that key's value in the
input. -/
theorem doc_single_sampled_entry (data : List (String × V))
    (outputDir : String) (c pick : Nat) (hc : 0 < c)
    (hnd : (data.map Prod.fst).Nodup) (hne : data ≠ []) :
    ∃ k v, docPayloads (splitJsonFile data outputDir (c : Int) pick)
        = [[(k, v)]] ∧ data.lookup k = some v := by
  cases data with
  | nil => exact absurd rfl hne
  | cons e rest =>
    have hkmem : ((e :: rest).map Prod.fst).getD
        (pick % (e :: rest).length) e.1 ∈ (e :: rest).map Prod.fst :=
      getD_mem _ (by simp)
    rcases lookup_isSome_of_mem hkmem with ⟨v, hv⟩
    refine ⟨_, v, ?_, hv⟩
    rw [docPayloads_run (e :: rest) outputDir c pick hc hnd hne]
    simp only [examplePayload]
    rw [hv]

/-- C8: running the partitioner twice on the same input and chunk size
produces identical shard writes and an identical index write (the same
paths, formats and serialized dicts — hence byte-identical files);
only the randomly sampled `doc.json` may differ. -/
theorem rerun_nondoc_outputs_identical (data : List (String × V))
    (outputDir : String) (C : Int) (pick1 pick2 : Nat) (hC : 0 < C) :
    (splitJsonFile data outputDir C pick1).events.filter
        (fun ev => (docPayload? ev).isNone)
      = (splitJsonFile data outputDir C pick2).events.filter
        (fun ev => (docPayload? ev).isNone) ∧
    (splitJsonFile data outputDir C pick1).result
      = (splitJsonFile data outputDir C pick2).result := by
  have hC0 : C ≠ 0 := by omega
  cases data with
  | nil =>
    rw [splitJsonFile_nil outputDir C pick1 hC0,
      splitJsonFile_nil outputDir C pick2 hC0]
    exact ⟨rfl, rfl⟩
  | cons e rest =>
    have hk1 : ((e :: rest).map Prod.fst).getD
        (pick1 % (e :: rest).length) e.1 ∈ (e :: rest).map Prod.fst :=
      getD_mem _ (by simp)
    have hk2 : ((e :: rest).map Prod.fst).getD
        (pick2 % (e :: rest).length) e.1 ∈ (e :: rest).map Prod.fst :=
      getD_mem _ (by simp)
    rcases lookup_isSome_of_mem hk1 with ⟨v1, hv1⟩
    rcases lookup_isSome_of_mem hk2 with ⟨v2, hv2⟩
    simp only [splitJsonFile, if_neg hC0, hv1, hv2]
    split
    next events err heq =>
      simp [docPayload?]
    next events index heq =>
      simp [docPayload?]

/-- C9: every run that completes without failure returns the path of
the created index file, namely the output directory joined with the
fixed name `geometry_index.json`. -/
theorem returns_index_file_path (data : List (String × V))
    (outputDir : String) (C : Int) (pick : Nat) (p : String)
    (h : (splitJsonFile data outputDir C pick).result = RunResult.returned p) :
    p = pathJoin outputDir "geometry_index.json" := by
  by_cases hC0 : C = 0
  · rw [hC0, splitJsonFile_zero data outputDir pick] at h
    simp at h
  · cases data with
    | nil =>
      rw [splitJsonFile_nil outputDir C pick hC0] at h
      simp at h
    | cons e rest =>
      simp only [splitJsonFile, if_neg hC0] at h
      cases hlk : (e :: rest).lookup (((e :: rest).map Prod.fst).getD
          (pick % (e :: rest).length) e.1) with
      | none =>
        simp only [hlk] at h
        simp at h
      | some v =>
        simp only [hlk] at h
        split at h
        next events err heq =>
          simp at h
        next events index heq =>
          simp at h
          exact h.symm

/-- C10: for every non-empty input the write trace has a fixed order:
`doc.json` first, then the shard files `geometry_0 .. geometry_{N-1}`
in increasing shard number, and `geometry_index.json` strictly last —
so the index file is written only after every shard file. -/
theorem write_order_doc_shards_index (data : List (String × V))
    (outputDir : String) (c pick : Nat) (hc : 0 < c)
    (hnd : (data.map Prod.fst).Nodup) (hne : data ≠ []) :
    (splitJsonFile data outputDir (c : Int) pick).events
      = ⟨pathJoin outputDir "doc.json", .indent2,
          .doc (examplePayload data pick)⟩ ::
        (List.range (ceilDiv (data.length : Int) (c : Int)).toNat).map
          (shardEventAt data outputDir c)
        ++ [⟨pathJoin outputDir "geometry_index.json", .minified,
             .index (idxUpTo data c
               (ceilDiv (data.length : Int) (c : Int)).toNat)⟩] := by
  rw [splitJsonFile_spec data outputDir c pick hc hnd hne]

/-! ### Witnesses instantiating the claim theorems on concrete inputs -/

theorem keys_partitioned_and_indexed_witness :
    0 < 2 ∧
    (([("a", 1), ("b", 2), ("c", 3)] : List (String × Nat)).map Prod.fst).Nodup ∧
    (shardPayloads (splitJsonFile
        ([("a", 1), ("b", 2), ("c", 3)] : List (String × Nat)) "out"
        ((2 : Nat) : Int) 0)).countP
      (fun s => decide ("a" ∈ s.map Prod.fst)) = 1 :=
  ⟨by decide, by decide,
   (keys_partitioned_and_indexed [("a", 1), ("b", 2), ("c", 3)] "out" 2 0
     (by decide) (by decide)).1 "a" (by decide)⟩

theorem shard_count_eq_ceil_witness :
    0 < 2 ∧
    (([("a", 1), ("b", 2), ("c", 3)] : List (String × Nat)).map Prod.fst).Nodup ∧
    ((shardPayloads (splitJsonFile
        ([("a", 1), ("b", 2), ("c", 3)] : List (String × Nat)) "out"
        ((2 : Nat) : Int) 0)).length : Int)
      = ceilDiv (([("a", 1), ("b", 2), ("c", 3)] :
          List (String × Nat)).length : Int) ((2 : Nat) : Int) :=
  ⟨by decide, by decide,
   shard_count_eq_ceil [("a", 1), ("b", 2), ("c", 3)] "out" 2 0
     (by decide) (by decide)⟩

theorem shard_sizes_full_except_last_witness :
    0 < 2 ∧
    (([("a", 1), ("b", 2), ("c", 3)] : List (String × Nat)).map Prod.fst).Nodup ∧
    ([("a", 1), ("b", 2), ("c", 3)] : List (String × Nat)) ≠ [] ∧
    ((shardPayloads (splitJsonFile
        ([("a", 1), ("b", 2), ("c", 3)] : List (String × Nat)) "out"
        ((2 : Nat) : Int) 0)).getD 0 []).length = 2 :=
  ⟨by decide, by decide, by decide,
   (shard_sizes_full_except_last [("a", 1), ("b", 2), ("c", 3)] "out" 2 0
     (by decide) (by decide) (by decide)).1 0 (by decide)⟩

theorem shard_contents_ordered_slice_witness :
    0 < 2 ∧
    (([("a", 1), ("b", 2), ("c", 3)] : List (String × Nat)).map Prod.fst).Nodup ∧
    (shardPayloads (splitJsonFile
        ([("a", 1), ("b", 2), ("c", 3)] : List (String × Nat)) "out"
        ((2 : Nat) : Int) 0)).getD 1 []
      = (([("a", 1), ("b", 2), ("c", 3)] : List (String × Nat)).drop (1 * 2)).take
          (min ((1 + 1) * 2)
            ([("a", 1), ("b", 2), ("c", 3)] : List (String × Nat)).length - 1 * 2) :=
  ⟨by decide, by decide,
   shard_contents_ordered_slice [("a", 1), ("b", 2), ("c", 3)] "out" 2 0
     (by decide) (by decide) 1 (by decide)⟩

theorem doc_single_sampled_entry_witness :
    0 < 2 ∧
    (([("a", 1), ("b", 2), ("c", 3)] : List (String × Nat)).map Prod.fst).Nodup ∧
    ([("a", 1), ("b", 2), ("c", 3)] : List (String × Nat)) ≠ [] ∧
    (∃ k v, docPayloads (splitJsonFile
        ([("a", 1), ("b", 2), ("c", 3)] : List (String × Nat)) "out"
        ((2 : Nat) : Int) 0) = [[(k, v)]] ∧
      ([("a", 1), ("b", 2), ("c", 3)] : List (String × Nat)).lookup k = some v) :=
  ⟨by decide, by decide, by decide,
   doc_single_sampled_entry [("a", 1), ("b", 2), ("c", 3)] "out" 2 0
     (by decide) (by decide) (by decide)⟩

theorem rerun_nondoc_outputs_identical_witness :
    (0 : Int) < 2 ∧
    ((splitJsonFile ([("a", 1), ("b", 2), ("c", 3)] : List (String × Nat))
        "out" 2 0).events.filter (fun ev => (docPayload? ev).isNone)
      = (splitJsonFile ([("a", 1), ("b", 2), ("c", 3)] : List (String × Nat))
        "out" 2 1).events.filter (fun ev => (docPayload? ev).isNone)) ∧
    (splitJsonFile ([("a", 1), ("b", 2), ("c", 3)] : List (String × Nat))
        "out" 2 0).result
      = (splitJsonFile ([("a", 1), ("b", 2), ("c", 3)] : List (String × Nat))
        "out" 2 1).result :=
  ⟨by decide,
   (rerun_nondoc_outputs_identical [("a", 1), ("b", 2), ("c", 3)] "out" 2 0 1
     (by decide)).1,
   (rerun_nondoc_outputs_identical [("a", 1), ("b", 2), ("c", 3)] "out" 2 0 1
     (by decide)).2⟩

theorem returns_index_file_path_witness :
    (splitJsonFile ([("a", 1), ("b", 2), ("c", 3)] : List (String × Nat))
        "out" 2 0).result = RunResult.returned "out/geometry_index.json" ∧
    ("out/geometry_index.json" : String) = pathJoin "out" "geometry_index.json" :=
  ⟨by decide,
   returns_index_file_path [("a", 1), ("b", 2), ("c", 3)] "out" 2 0
     "out/geometry_index.json" (by decide)⟩

theorem write_order_doc_shards_index_witness :
    0 < 2 ∧
    (([("a", 1), ("b", 2), ("c", 3)] : List (String × Nat)).map Prod.fst).Nodup ∧
    ([("a", 1), ("b", 2), ("c", 3)] : List (String × Nat)) ≠ [] ∧
    (splitJsonFile ([("a", 1), ("b", 2), ("c", 3)] : List (String × Nat))
        "out" ((2 : Nat) : Int) 0).events
      = ⟨pathJoin "out" "doc.json", .indent2,
          .doc (examplePayload [("a", 1), ("b", 2), ("c", 3)] 0)⟩ ::
        (List.range (ceilDiv (([("a", 1), ("b", 2), ("c", 3)] :
            List (String × Nat)).length : Int) ((2 : Nat) : Int)).toNat).map
          (shardEventAt [("a", 1), ("b", 2), ("c", 3)] "out" 2)
        ++ [⟨pathJoin "out" "geometry_index.json", .minified,
             .index (idxUpTo [("a", 1), ("b", 2), ("c", 3)] 2
               (ceilDiv (([("a", 1), ("b", 2), ("c", 3)] :
                 List (String × Nat)).length : Int) ((2 : Nat) : Int)).toNat)⟩] :=
  ⟨by decide, by decide, by decide,
   write_order_doc_shards_index [("a", 1), ("b", 2), ("c", 3)] "out" 2 0
     (by decide) (by decide) (by decide)⟩

end Lemmas

end Geometry
